import Mathlib

/-!
# Color-ID — verification of the capture/sampling pipeline

Shallow embedding of the Color Identifier application
(`src/Color Identifier/App.tsx`, the later revision with the
colord-primary / chroma-secondary naming chain).  Pure helper
functions of the source become Lean functions; JavaScript numbers that
hold pixel coordinates or normalized positions become `ℚ`, integer
channel values become `ℤ`/`ℕ`, and fallible lookups become
`Option String` (where `none` models "the library raised or returned
`undefined`", exactly how the source's `try`/`catch` collapses the two).
String operations are written structurally over the character list so
that every definition evaluates inside the kernel.
-/

set_option maxRecDepth 8000

/-- JavaScript `Math.round`: rounds half toward positive infinity,
i.e. `Math.round x = ⌊x + 0.5⌋` for every finite `x`. -/
def jsRound (q : ℚ) : ℤ := ⌊q + 1/2⌋

/-- `componentToHex` (App.tsx line 358): `c.toString(16)` then pad a
single-character result with a leading "0".  JavaScript renders an
integer in base 16 as lowercase digits, with a leading minus sign for
negative values; `Nat.toDigits 16` is exactly the digit part. -/
def componentToHex (c : ℤ) : String :=
  let hex : String :=
    if c < 0 then "-" ++ String.mk (Nat.toDigits 16 c.natAbs)
    else String.mk (Nat.toDigits 16 c.toNat)
  if hex.length = 1 then "0" ++ hex else hex

/-- `rgbToHex` (App.tsx line 363): `#` followed by the three channel
components. -/
def rgbToHex (r g b : ℤ) : String :=
  "#" ++ componentToHex r ++ componentToHex g ++ componentToHex b

/-- The `rgb(r, g, b)` display string built in `captureColor`
(App.tsx line 629). -/
def rgbString (r g b : ℤ) : String :=
  "rgb(" ++ toString r ++ ", " ++ toString g ++ ", " ++ toString b ++ ")"

/-- The zero-padded two-digit lowercase hex rendering of a byte, as the
spec describes it ("the zero-padded lowercase hex of each channel"). -/
def hexPad2 (c : ℕ) : String :=
  String.mk [Nat.digitChar (c / 16), Nat.digitChar (c % 16)]

/-- Value of a lowercase hexadecimal digit character. -/
def hexCharVal (c : Char) : Option ℕ :=
  if '0' ≤ c ∧ c ≤ '9' then some (c.toNat - '0'.toNat)
  else if 'a' ≤ c ∧ c ≤ 'f' then some (c.toNat - 'a'.toNat + 10)
  else none

/-- Modelled from the spec: the inverse direction of the spec's
"Hex/RGB round-trip" property ("converting to hex and back").  The
source contains no hex parser, so this reads a `#rrggbb` string back
into its three channel values, as the spec's round-trip demands. -/
def parseRgbHex (str : String) : Option (ℕ × ℕ × ℕ) :=
  match str.data with
  | ['#', h1, h2, h3, h4, h5, h6] => do
      let a ← hexCharVal h1
      let b ← hexCharVal h2
      let c ← hexCharVal h3
      let d ← hexCharVal h4
      let e ← hexCharVal h5
      let f ← hexCharVal h6
      some (16 * a + b, 16 * c + d, 16 * e + f)
  | _ => none

/-- JavaScript `str.split(' ')` on the character list: splits at every
single space, keeping empty segments (so consecutive, leading or
trailing spaces produce empty words, as in JavaScript). -/
def splitOnSpace : List Char → List (List Char)
  | [] => [[]]
  | ' ' :: rest => [] :: splitOnSpace rest
  | c :: rest =>
      match splitOnSpace rest with
      | [] => [[c]]
      | w :: ws => (c :: w) :: ws

/-- One word of `captureColor`'s capitalization (App.tsx line 624):
`w.charAt(0).toUpperCase() + w.slice(1)`.  `charAt(0)` of the empty
string is the empty string, so an empty word is unchanged; color names
are ASCII, where JavaScript `toUpperCase` agrees with `Char.toUpper`. -/
def capitalizeWordChars : List Char → List Char
  | [] => []
  | c :: rest => c.toUpper :: rest

/-- JavaScript `.join(' ')`. -/
def joinSpace : List (List Char) → List Char
  | [] => []
  | [w] => w
  | w :: ws => w ++ ' ' :: joinSpace ws

/-- `capitalizeWordChars` repackaged on strings. -/
def capitalizeWord (w : String) : String :=
  String.mk (capitalizeWordChars w.data)

/-- `colorName.split(' ').map(...).join(' ')` (App.tsx line 624). -/
def capitalizeWords (s : String) : String :=
  String.mk (joinSpace ((splitOnSpace s.data).map capitalizeWordChars))

/-- JavaScript `str.toUpperCase()` for ASCII strings (all strings this
program uppercases are `#rrggbb` hex codes). -/
def jsToUpperCase (s : String) : String :=
  String.mk (s.data.map Char.toUpper)

/-- JavaScript falsiness of a `string | undefined` value: `undefined`
(here `none`, which also models a lookup that threw, since the source's
`catch` turns a throw into `undefined`) or the empty string. -/
def isFalsy (s : Option String) : Bool :=
  match s with
  | none => true
  | some str => str == ""

/-- The naming chain of `captureColor` (App.tsx lines 599–619):
`colorName` is the colord result (`none` when colord threw or returned
`undefined`); when that is falsy the chroma result is tried, and a
chroma throw leaves the previous (falsy) value in place. -/
def resolveColorName (primary secondary : Option String) : Option String :=
  if isFalsy primary then
    match secondary with
    | some s => some s
    | none => primary
  else primary

/-- The final display name (App.tsx lines 623–625):
`colorName ? capitalize(colorName) : hex.toUpperCase()`. -/
def displayNameOf (resolved : Option String) (hex : String) : String :=
  match resolved with
  | some s => if s == "" then jsToUpperCase hex else capitalizeWords s
  | none => jsToUpperCase hex

/-- The display name computed by one sampling pass, as a function of
the two lookup results and the hex string. -/
def displayName (primary secondary : Option String) (hex : String) : String :=
  displayNameOf (resolveColorName primary secondary) hex

/-- `sampleSize` (App.tsx line 572). -/
def sampleSize : ℕ := 5

/-- `halfSampleSize = Math.floor(sampleSize / 2)` (App.tsx line 573). -/
def halfSampleSize : ℕ := sampleSize / 2

/-- `pixelCount = sampleSize * sampleSize` (App.tsx line 584). -/
def pixelCount : ℕ := sampleSize * sampleSize

/-- Sampling-window corner on one axis (App.tsx lines 576–577):
`Math.round(Math.max(0, Math.min(center - halfSampleSize,
sourceDimension - sampleSize)))`. -/
def sampleCorner (dim center : ℚ) : ℤ :=
  jsRound (max 0 (min (center - (halfSampleSize : ℚ)) (dim - (sampleSize : ℚ))))

/-- The spec's clamp: `clamp(v, lo, hi) = max lo (min v hi)`, written
from the spec sentence `corner = round(clamp(center − half, 0,
sourceDimension − sampleSize))`. -/
def specClamp (v lo hi : ℚ) : ℚ := max lo (min v hi)

/-- Horizontal target center of a sampling pass (App.tsx line 574):
the crosshair position scaled by the source width when frozen, the
exact middle of the source when live. -/
def targetCenterX (isFrozen : Bool) (crosshairX sourceWidth : ℚ) : ℚ :=
  if isFrozen then crosshairX * sourceWidth else sourceWidth / 2

/-- Vertical target center of a sampling pass (App.tsx line 575). -/
def targetCenterY (isFrozen : Bool) (crosshairY sourceHeight : ℚ) : ℚ :=
  if isFrozen then crosshairY * sourceHeight else sourceHeight / 2

/-- The accumulation loop of `captureColor` (App.tsx lines 586–590):
`for (i = 0; i < pixelData.length; i += 4)` summing entries `i`,
`i+1`, `i+2`.  A read past the end of the buffer yields `undefined`
in JavaScript and poisons the corresponding total with `NaN`, which the
`isNaN` guard later turns into an abort; `none` models "some total
became NaN".  A tail of exactly three entries still reads all three in
bounds, so it completes. -/
def sumChannels : List ℕ → Option (ℕ × ℕ × ℕ)
  | [] => some (0, 0, 0)
  | [_] => none
  | [_, _] => none
  | [r, g, b] => some (r, g, b)
  | r :: g :: b :: _ :: rest =>
      (sumChannels rest).map (fun t => (r + t.1, g + t.2.1, b + t.2.2))

/-- Channel averages of `captureColor` (App.tsx lines 592–594):
`Math.round(total / pixelCount)` for each channel, `none` when the
`isNaN` guard (line 596) would abort the pass. -/
def averageChannels (data : List ℕ) : Option (ℤ × ℤ × ℤ) :=
  (sumChannels data).map (fun t =>
    (jsRound ((t.1 : ℚ) / (pixelCount : ℚ)),
     jsRound ((t.2.1 : ℚ) / (pixelCount : ℚ)),
     jsRound ((t.2.2 : ℚ) / (pixelCount : ℚ))))

/-- An RGBA pixel list flattened into the raw byte buffer layout that
`getImageData` returns (4 bytes per pixel, in r, g, b, a order). -/
def flattenPixels : List (ℕ × ℕ × ℕ × ℕ) → List ℕ
  | [] => []
  | (r, g, b, a) :: rest => r :: g :: b :: a :: flattenPixels rest

/-- Sum of the red channel over a pixel list. -/
def sumR (pixels : List (ℕ × ℕ × ℕ × ℕ)) : ℕ :=
  (pixels.map (fun p => p.1)).sum

/-- Sum of the green channel over a pixel list. -/
def sumG (pixels : List (ℕ × ℕ × ℕ × ℕ)) : ℕ :=
  (pixels.map (fun p => p.2.1)).sum

/-- Sum of the blue channel over a pixel list. -/
def sumB (pixels : List (ℕ × ℕ × ℕ × ℕ)) : ℕ :=
  (pixels.map (fun p => p.2.2.1)).sum

/-- `AppColorData` (App.tsx lines 368–375). -/
structure AppColorData where
  hex : String
  rgb : String
  name : String
  r : ℤ
  g : ℤ
  b : ℤ

/-- The record pushed by `setColorData` (App.tsx lines 627–632), as a
function of the averaged channels and the two lookup results. -/
def mkColorData (primary secondary : Option String) (r g b : ℤ) : AppColorData :=
  let hex := rgbToHex r g b
  { hex := hex
    rgb := rgbString r g b
    name := displayName primary secondary hex
    r := r, g := g, b := b }

/-- The slice of the application state that `stopCamera` touches:
the two booleans, the stored stream handle (`streamRef.current`), the
live-flags of the stream's media tracks, and whether the video element
has a source attached. -/
structure CameraState where
  isCameraOn : Bool
  isFrozen : Bool
  hasStream : Bool
  tracks : List Bool
  videoAttached : Bool

/-- `stopCamera` (App.tsx lines 504–514): when a stream handle is
stored, stop every track and clear the handle; detach the video
source; set `isCameraOn` and `isFrozen` to `false`. -/
def stopCamera (s : CameraState) : CameraState :=
  let s1 :=
    if s.hasStream then
      { s with tracks := s.tracks.map (fun _ => false), hasStream := false }
    else s
  { s1 with videoAttached := false, isCameraOn := false, isFrozen := false }

/-- The initial crosshair position (App.tsx line 500): `{x: 0.5, y: 0.5}`. -/
def initialCrosshairPosition : ℚ × ℚ := (1/2, 1/2)

/-- The reset performed on entering freeze (App.tsx line 648):
`setCrosshairPosition({x: 0.5, y: 0.5})`. -/
def freezeResetCrosshair : ℚ × ℚ := (1/2, 1/2)

/-- `handleCanvasClick` (App.tsx lines 657–664): a no-op while live,
otherwise the click offset from the surface's top-left corner divided
by its rendered width/height, with no clamping. -/
def handleCanvasClick (isFrozen : Bool) (pos : ℚ × ℚ)
    (clientX clientY rectLeft rectTop rectWidth rectHeight : ℚ) : ℚ × ℚ :=
  if !isFrozen then pos
  else ((clientX - rectLeft) / rectWidth, (clientY - rectTop) / rectHeight)

/-! ## Helper lemmas -/

theorem componentToHex_lt256 :
    ∀ c : ℕ, c < 256 → componentToHex (c : ℤ) = hexPad2 c := by
  decide

theorem hexCharVal_digitChar :
    ∀ d : ℕ, d < 16 → hexCharVal (Nat.digitChar d) = some d := by
  decide

/-! ## Claims -/

/-- Claim C1: the color name of a sampled hex value is resolved by
querying the primary lookup (colord) first; a primary error is treated
exactly like "no name" (both are `none` here, because the source's
`catch` overwrites the result with `undefined`); the secondary lookup
(chroma-js) is consulted only when the primary result is falsy and
enjoys the same tolerance (its throw leaves the falsy value in place);
when both are falsy the display name falls back to the uppercased hex
code; and the chain is a total function, so no lookup failure escapes
the sampling pass. -/
theorem displayName_resolution_chain (p s : Option String) (hex : String) :
    (∀ n, p = some n → n ≠ "" → displayName p s hex = capitalizeWords n) ∧
    (isFalsy p = true → ∀ n, s = some n → n ≠ "" →
      displayName p s hex = capitalizeWords n) ∧
    (isFalsy p = true → isFalsy s = true →
      displayName p s hex = jsToUpperCase hex) ∧
    (displayName p s hex = jsToUpperCase hex ∨
      ∃ n, resolveColorName p s = some n ∧
        displayName p s hex = capitalizeWords n) := by
  refine ⟨?_, ?_, ?_, ?_⟩
  · rintro n rfl hn
    cases hb : (n == "") with
    | true => exact absurd (by simpa using hb) hn
    | false => simp [displayName, resolveColorName, isFalsy, displayNameOf, hb]
  · rintro hp n rfl hn
    cases hb : (n == "") with
    | true => exact absurd (by simpa using hb) hn
    | false => simp [displayName, resolveColorName, hp, displayNameOf, hb]
  · intro hp hs
    cases s with
    | none =>
      cases p with
      | none => simp [displayName, resolveColorName, isFalsy, displayNameOf]
      | some str =>
        have hb : (str == "") = true := by simpa [isFalsy] using hp
        simp [displayName, resolveColorName, isFalsy, displayNameOf, hb]
    | some t =>
      have hb : (t == "") = true := by simpa [isFalsy] using hs
      simp [displayName, resolveColorName, hp, displayNameOf, hb]
  · unfold displayName
    cases hr : resolveColorName p s with
    | none => exact Or.inl (by simp [displayNameOf])
    | some str =>
      cases hb : (str == "") with
      | true => exact Or.inl (by simp [displayNameOf, hb])
      | false => exact Or.inr ⟨str, rfl, by simp [displayNameOf, hb]⟩

theorem displayName_resolution_chain_instance :
    displayName (some "light sky blue") none "#8ecae6" = "Light Sky Blue" := by
  have h := (displayName_resolution_chain (some "light sky blue") none
    "#8ecae6").1 "light sky blue" rfl (by decide)
  rw [h]; decide

/-- Claim C2 counterexample: with no lookup result for hex `#abcdef`
the display name is the whole hex string uppercased, `#ABCDEF`
(including the leading `#`), not the bare `ABCDEF` the claim states. -/
theorem hexFallback_counterexample :
    displayName none none "#abcdef" = "#ABCDEF" ∧
    displayName none none "#abcdef" ≠ "ABCDEF" := by
  exact ⟨by decide, by decide⟩

/-- Claim C2 (amended): every resolved lookup name is displayed with
each space-delimited word capitalized (first letter uppercased, the
remainder unchanged), e.g. "light sky blue" displays as
"Light Sky Blue"; and when no lookup yields a name for hex `#abcdef`
the display name is `#ABCDEF`, the uppercased hex string including its
leading `#`. -/
theorem displayName_capitalization (p s : Option String) (hex : String) :
    (∀ n, resolveColorName p s = some n → n ≠ "" →
      displayName p s hex = capitalizeWords n) ∧
    capitalizeWords "light sky blue" = "Light Sky Blue" ∧
    displayName none none "#abcdef" = "#ABCDEF" := by
  refine ⟨?_, by decide, by decide⟩
  intro n hr hn
  unfold displayName
  rw [hr]
  cases hb : (n == "") with
  | true => exact absurd (by simpa using hb) hn
  | false => simp [displayNameOf, hb]

theorem displayName_capitalization_instance :
    displayName (some "light sky blue") (some "navy") "#123456" = "Light Sky Blue" := by
  have h := (displayName_capitalization (some "light sky blue") (some "navy")
    "#123456").1 "light sky blue" (by decide) (by decide)
  rw [h]; decide

/-- Claim C3: on each axis the sampling window's top-left corner is
`round(clamp(center − 2, 0, sourceDimension − 5))` — the code's
`Math.round(Math.max(0, Math.min(center - halfSampleSize,
dim - sampleSize)))` is exactly the spec's rounded clamp — and for a
10×10 source a requested center of 0 yields corner 0 while a requested
center of 10 yields corner 5. -/
theorem sampleCorner_spec_clamp :
    (∀ dim center : ℚ,
      sampleCorner dim center = jsRound (specClamp (center - 2) 0 (dim - 5))) ∧
    sampleCorner 10 0 = 0 ∧ sampleCorner 10 10 = 5 := by
  refine ⟨fun dim center => ?_, ?_, ?_⟩
  · norm_num [sampleCorner, specClamp, halfSampleSize, sampleSize]
  · norm_num [sampleCorner, jsRound, halfSampleSize, sampleSize, min_def, max_def]
  · norm_num [sampleCorner, jsRound, halfSampleSize, sampleSize, min_def, max_def]

/-- Claim C4: a live sampling pass targets exactly the center
`(sourceWidth / 2, sourceHeight / 2)` whatever the stored crosshair
position is, and a frozen pass targets the crosshair's normalized
position scaled by the source dimensions. -/
theorem targetCenter_live_frozen (cx cy w h : ℚ) :
    (targetCenterX false cx w = w / 2 ∧ targetCenterY false cy h = h / 2) ∧
    (targetCenterX true cx w = cx * w ∧ targetCenterY true cy h = cy * h) := by
  simp [targetCenterX, targetCenterY]

theorem length_hexPad2 (c : ℕ) : (hexPad2 c).length = 2 := rfl

theorem sumChannels_flatten (pixels : List (ℕ × ℕ × ℕ × ℕ)) :
    sumChannels (flattenPixels pixels) =
      some (sumR pixels, sumG pixels, sumB pixels) := by
  induction pixels with
  | nil => simp [flattenPixels, sumChannels, sumR, sumG, sumB]
  | cons p rest ih =>
    obtain ⟨r, g, b, a⟩ := p
    simp [flattenPixels, sumChannels, ih, sumR, sumG, sumB]

/-- Claim C5: over a 25-pixel RGBA buffer, each sampled channel is the
unweighted arithmetic mean of that channel across the pixels, rounded
to the nearest integer (half away from zero, as `Math.round`), and the
alpha bytes never influence the result. -/
theorem averageChannels_mean (pixels : List (ℕ × ℕ × ℕ × ℕ))
    (h : pixels.length = 25) :
    averageChannels (flattenPixels pixels) =
      some (jsRound ((sumR pixels : ℚ) / (pixels.length : ℚ)),
            jsRound ((sumG pixels : ℚ) / (pixels.length : ℚ)),
            jsRound ((sumB pixels : ℚ) / (pixels.length : ℚ))) ∧
    ∀ a : ℕ,
      averageChannels
          (flattenPixels (pixels.map (fun p => (p.1, p.2.1, p.2.2.1, a)))) =
        averageChannels (flattenPixels pixels) := by
  constructor
  · rw [averageChannels, sumChannels_flatten, h]
    norm_num [pixelCount, sampleSize]
  · intro a
    rw [averageChannels, averageChannels, sumChannels_flatten, sumChannels_flatten]
    have hR : sumR (pixels.map fun p => (p.1, p.2.1, p.2.2.1, a)) = sumR pixels := by
      simp only [sumR, List.map_map]; rfl
    have hG : sumG (pixels.map fun p => (p.1, p.2.1, p.2.2.1, a)) = sumG pixels := by
      simp only [sumG, List.map_map]; rfl
    have hB : sumB (pixels.map fun p => (p.1, p.2.1, p.2.2.1, a)) = sumB pixels := by
      simp only [sumB, List.map_map]; rfl
    rw [hR, hG, hB]

theorem averageChannels_mean_instance :
    averageChannels (flattenPixels (List.replicate 25
      ((100 : ℕ), (150 : ℕ), (200 : ℕ), (255 : ℕ)))) = some (100, 150, 200) := by
  have h := (averageChannels_mean
    (List.replicate 25 ((100 : ℕ), (150 : ℕ), (200 : ℕ), (255 : ℕ))) (by simp)).1
  rw [h]
  norm_num [sumR, sumG, sumB, jsRound, List.map_replicate, List.sum_replicate]

/-- Claim C6: for channels in [0, 255], `rgbToHex` is `#` followed by
the zero-padded two-digit lowercase hex of each channel (so values
below 16 render as two characters), a 7-character string; parsing that
string back recovers the original channel triple and hence the
original `rgb(r, g, b)` display string. -/
theorem rgbToHex_roundTrip (r g b : ℕ)
    (hr : r < 256) (hg : g < 256) (hb : b < 256) :
    rgbToHex (r : ℤ) (g : ℤ) (b : ℤ) =
      "#" ++ hexPad2 r ++ hexPad2 g ++ hexPad2 b ∧
    (rgbToHex (r : ℤ) (g : ℤ) (b : ℤ)).length = 7 ∧
    parseRgbHex (rgbToHex (r : ℤ) (g : ℤ) (b : ℤ)) = some (r, g, b) ∧
    (parseRgbHex (rgbToHex (r : ℤ) (g : ℤ) (b : ℤ))).map
        (fun t => rgbString (t.1 : ℤ) (t.2.1 : ℤ) (t.2.2 : ℤ)) =
      some (rgbString (r : ℤ) (g : ℤ) (b : ℤ)) := by
  have hform : rgbToHex (r : ℤ) (g : ℤ) (b : ℤ) =
      "#" ++ hexPad2 r ++ hexPad2 g ++ hexPad2 b := by
    rw [rgbToHex, componentToHex_lt256 r hr, componentToHex_lt256 g hg,
      componentToHex_lt256 b hb]
  have hdata : (rgbToHex (r : ℤ) (g : ℤ) (b : ℤ)).data =
      ['#', Nat.digitChar (r / 16), Nat.digitChar (r % 16),
       Nat.digitChar (g / 16), Nat.digitChar (g % 16),
       Nat.digitChar (b / 16), Nat.digitChar (b % 16)] := by
    rw [hform]
    simp [hexPad2, String.data_append]
  have hparse : parseRgbHex (rgbToHex (r : ℤ) (g : ℤ) (b : ℤ)) = some (r, g, b) := by
    unfold parseRgbHex
    rw [hdata]
    simp only [hexCharVal_digitChar (r / 16) (by omega),
      hexCharVal_digitChar (r % 16) (by omega),
      hexCharVal_digitChar (g / 16) (by omega),
      hexCharVal_digitChar (g % 16) (by omega),
      hexCharVal_digitChar (b / 16) (by omega),
      hexCharVal_digitChar (b % 16) (by omega)]
    have er : 16 * (r / 16) + r % 16 = r := by omega
    have eg : 16 * (g / 16) + g % 16 = g := by omega
    have eb : 16 * (b / 16) + b % 16 = b := by omega
    show some (16 * (r / 16) + r % 16, 16 * (g / 16) + g % 16,
      16 * (b / 16) + b % 16) = some (r, g, b)
    rw [er, eg, eb]
  refine ⟨hform, ?_, hparse, ?_⟩
  · rw [hform]
    simp only [String.length_append, length_hexPad2]
    rfl
  · rw [hparse]
    rfl

theorem rgbToHex_roundTrip_instance :
    rgbToHex ((5 : ℕ) : ℤ) ((128 : ℕ) : ℤ) ((1 : ℕ) : ℤ) = "#058001" ∧
    parseRgbHex (rgbToHex ((5 : ℕ) : ℤ) ((128 : ℕ) : ℤ) ((1 : ℕ) : ℤ)) =
      some (5, 128, 1) := by
  have h := rgbToHex_roundTrip 5 128 1 (by decide) (by decide) (by decide)
  refine ⟨?_, h.2.2.1⟩
  rw [h.1]
  decide

/-- Claim C7: stopping the camera from any state forces
`isCameraOn = false` and `isFrozen = false`, always leaves no stored
stream handle, and — when an active stream was held — stops every one
of its tracks. -/
theorem stopCamera_invariants (s : CameraState) :
    (stopCamera s).isCameraOn = false ∧
    (stopCamera s).isFrozen = false ∧
    (stopCamera s).hasStream = false ∧
    (s.hasStream = true →
      (stopCamera s).tracks.all (fun t => t == false) = true) := by
  cases hs : s.hasStream with
  | true =>
    refine ⟨rfl, rfl, ?_, ?_⟩
    · simp [stopCamera, hs]
    · intro _
      simp [stopCamera, hs, List.all_eq_true]
  | false =>
    refine ⟨rfl, rfl, ?_, ?_⟩
    · simp [stopCamera, hs]
    · intro h
      exact absurd h (by decide)

theorem stopCamera_invariants_instance :
    (stopCamera ⟨true, true, true, [true, true, false], true⟩).isCameraOn = false ∧
    (stopCamera ⟨true, true, true, [true, true, false], true⟩).isFrozen = false ∧
    (stopCamera ⟨true, true, true, [true, true, false], true⟩).hasStream = false ∧
    (stopCamera ⟨true, true, true, [true, true, false], true⟩).tracks.all
      (fun t => t == false) = true := by
  have h := stopCamera_invariants ⟨true, true, true, [true, true, false], true⟩
  exact ⟨h.1, h.2.1, h.2.2.1, h.2.2.2 rfl⟩

/-- Claim C8: the initial and freeze-reset crosshair values are
(0.5, 0.5), hence within [0, 1] on both axes; a click while not frozen
leaves the stored position unchanged; and a click delivered inside the
frozen surface's bounding rectangle produces, with no clamping, a
normalized position whose coordinates lie in [0, 1]. -/
theorem crosshair_normalized :
    (initialCrosshairPosition = (1/2, 1/2) ∧ freezeResetCrosshair = (1/2, 1/2) ∧
      0 ≤ initialCrosshairPosition.1 ∧ initialCrosshairPosition.1 ≤ 1 ∧
      0 ≤ initialCrosshairPosition.2 ∧ initialCrosshairPosition.2 ≤ 1) ∧
    (∀ (pos : ℚ × ℚ) (cx cy l t w h : ℚ),
      handleCanvasClick false pos cx cy l t w h = pos) ∧
    (∀ (pos : ℚ × ℚ) (cx cy l t w h : ℚ),
      0 < w → 0 < h → l ≤ cx → cx ≤ l + w → t ≤ cy → cy ≤ t + h →
      0 ≤ (handleCanvasClick true pos cx cy l t w h).1 ∧
      (handleCanvasClick true pos cx cy l t w h).1 ≤ 1 ∧
      0 ≤ (handleCanvasClick true pos cx cy l t w h).2 ∧
      (handleCanvasClick true pos cx cy l t w h).2 ≤ 1) := by
  refine ⟨⟨rfl, rfl, by norm_num [initialCrosshairPosition]⟩, ?_, ?_⟩
  · intro pos cx cy l t w h
    simp [handleCanvasClick]
  · intro pos cx cy l t w h hw hh hx1 hx2 hy1 hy2
    have hc : handleCanvasClick true pos cx cy l t w h
        = ((cx - l) / w, (cy - t) / h) := rfl
    rw [hc]
    dsimp only
    refine ⟨div_nonneg (by linarith) hw.le, ?_,
      div_nonneg (by linarith) hh.le, ?_⟩
    · rw [div_le_one hw]; linarith
    · rw [div_le_one hh]; linarith

theorem crosshair_normalized_instance :
    0 ≤ (handleCanvasClick true (1/2, 1/2) 37 21 10 4 40 30).1 ∧
    (handleCanvasClick true (1/2, 1/2) 37 21 10 4 40 30).1 ≤ 1 ∧
    0 ≤ (handleCanvasClick true (1/2, 1/2) 37 21 10 4 40 30).2 ∧
    (handleCanvasClick true (1/2, 1/2) 37 21 10 4 40 30).2 ≤ 1 :=
  crosshair_normalized.2.2 (1/2, 1/2) 37 21 10 4 40 30
    (by norm_num) (by norm_num) (by norm_num) (by norm_num) (by norm_num) (by norm_num)

/-- Claim C9: for a source dimension of at least 5, the computed
window corner on that axis is an integer between 0 and dimension − 5
inclusive, whatever (possibly out-of-range) requested center the
crosshair produced; for a dimension smaller than 5 the corner still
clamps to 0. -/
theorem sampleCorner_inBounds (W : ℕ) (c : ℚ) :
    (5 ≤ W → 0 ≤ sampleCorner (W : ℚ) c ∧ sampleCorner (W : ℚ) c ≤ (W : ℤ) - 5) ∧
    (W < 5 → sampleCorner (W : ℚ) c = 0) := by
  have hhalf : ((halfSampleSize : ℕ) : ℚ) = 2 := by
    norm_num [halfSampleSize, sampleSize]
  have hsize : ((sampleSize : ℕ) : ℚ) = 5 := by norm_num [sampleSize]
  constructor
  · intro hW
    unfold sampleCorner jsRound
    set v := max 0 (min (c - (halfSampleSize : ℚ)) ((W : ℚ) - (sampleSize : ℚ)))
      with hv
    have hv0 : 0 ≤ v := le_max_left _ _
    have hvW : v ≤ (W : ℚ) - 5 := by
      rw [hv, hsize]
      apply max_le
      · have h5 : (5 : ℚ) ≤ (W : ℚ) := by exact_mod_cast hW
        linarith
      · exact min_le_right _ _
    constructor
    · apply Int.le_floor.mpr
      push_cast
      linarith
    · have hlt : ⌊v + 1/2⌋ < (W : ℤ) - 4 := by
        apply Int.floor_lt.mpr
        push_cast
        linarith
      omega
  · intro hW
    have hneg : (W : ℚ) - (sampleSize : ℚ) < 0 := by
      rw [hsize]
      have h5 : (W : ℚ) < 5 := by exact_mod_cast hW
      linarith
    have hzero : max 0 (min (c - (halfSampleSize : ℚ))
        ((W : ℚ) - (sampleSize : ℚ))) = 0 := by
      apply max_eq_left
      calc min (c - (halfSampleSize : ℚ)) ((W : ℚ) - (sampleSize : ℚ))
          ≤ (W : ℚ) - (sampleSize : ℚ) := min_le_right _ _
        _ ≤ 0 := hneg.le
    unfold sampleCorner jsRound
    rw [hzero]
    norm_num

theorem sampleCorner_inBounds_instance :
    0 ≤ sampleCorner ((10 : ℕ) : ℚ) (73/10) ∧
    sampleCorner ((10 : ℕ) : ℚ) (73/10) ≤ ((10 : ℕ) : ℤ) - 5 :=
  (sampleCorner_inBounds 10 (73/10)).1 (by norm_num)

theorem sumChannels_bound : ∀ (n : ℕ) (data : List ℕ), data.length = 4 * n →
    (∀ x ∈ data, x ≤ 255) →
    ∃ t : ℕ × ℕ × ℕ, sumChannels data = some t ∧
      t.1 ≤ 255 * n ∧ t.2.1 ≤ 255 * n ∧ t.2.2 ≤ 255 * n := by
  intro n
  induction n with
  | zero =>
    intro data hlen _
    have hnil : data = [] := List.length_eq_zero.mp (by omega)
    subst hnil
    exact ⟨(0, 0, 0), rfl, by simp, by simp, by simp⟩
  | succ n ih =>
    intro data hlen hb
    cases data with
    | nil => simp only [List.length_nil] at hlen; omega
    | cons a t1 =>
      cases t1 with
      | nil => simp only [List.length_cons, List.length_nil] at hlen; omega
      | cons b t2 =>
        cases t2 with
        | nil => simp only [List.length_cons, List.length_nil] at hlen; omega
        | cons c t3 =>
          cases t3 with
          | nil => simp only [List.length_cons, List.length_nil] at hlen; omega
          | cons d rest =>
            have hrest : rest.length = 4 * n := by
              simp only [List.length_cons] at hlen; omega
            obtain ⟨t, ht, h1, h2, h3⟩ := ih rest hrest
              (fun x hx => hb x (by simp [hx]))
            refine ⟨(a + t.1, b + t.2.1, c + t.2.2), ?_, ?_, ?_, ?_⟩
            · simp [sumChannels, ht]
            · have ha : a ≤ 255 := hb a (by simp)
              simp only []
              omega
            · have hbb : b ≤ 255 := hb b (by simp)
              simp only []
              omega
            · have hc : c ≤ 255 := hb c (by simp)
              simp only []
              omega

/-- Claim C10: for a 100-byte RGBA readback buffer (25 pixels, every
entry at most 255), the channel averaging always completes — `none`,
which models the `isNaN` abort branch, cannot occur — and it yields
integer channels in [0, 255], so the constructed color record's hex
string is exactly 7 characters long. -/
theorem averageChannels_byte_safety (data : List ℕ)
    (hlen : data.length = 100) (hbytes : ∀ x ∈ data, x ≤ 255) :
    ∃ r g b : ℤ, averageChannels data = some (r, g, b) ∧
      0 ≤ r ∧ r ≤ 255 ∧ 0 ≤ g ∧ g ≤ 255 ∧ 0 ≤ b ∧ b ≤ 255 ∧
      ∀ p s : Option String, ((mkColorData p s r g b).hex).length = 7 := by
  obtain ⟨t, ht, h1, h2, h3⟩ := sumChannels_bound 25 data (by omega) hbytes
  have key : ∀ m : ℕ, m ≤ 6375 →
      0 ≤ jsRound ((m : ℚ) / 25) ∧ jsRound ((m : ℚ) / 25) ≤ 255 := by
    intro m hm
    constructor
    · apply Int.le_floor.mpr
      have hnn : (0 : ℚ) ≤ (m : ℚ) / 25 := by positivity
      push_cast
      linarith
    · have hdiv : (m : ℚ) / 25 ≤ 255 := by
        rw [div_le_iff₀ (by norm_num : (0 : ℚ) < 25)]
        have : (m : ℚ) ≤ 6375 := by exact_mod_cast hm
        linarith
      have hfl : ⌊(m : ℚ) / 25 + 1/2⌋ < (256 : ℤ) := by
        apply Int.floor_lt.mpr
        push_cast
        linarith
      unfold jsRound
      omega
  have havg : averageChannels data =
      some (jsRound ((t.1 : ℚ) / 25), jsRound ((t.2.1 : ℚ) / 25),
            jsRound ((t.2.2 : ℚ) / 25)) := by
    rw [averageChannels, ht]
    norm_num [pixelCount, sampleSize]
  have hexlen : ∀ z : ℤ, 0 ≤ z → z ≤ 255 → (componentToHex z).length = 2 := by
    intro z hz0 hz255
    have hz : ((z.toNat : ℕ) : ℤ) = z := Int.toNat_of_nonneg hz0
    rw [← hz, componentToHex_lt256 z.toNat (by omega)]
    exact length_hexPad2 _
  obtain ⟨kr1, kr2⟩ := key t.1 (by omega)
  obtain ⟨kg1, kg2⟩ := key t.2.1 (by omega)
  obtain ⟨kb1, kb2⟩ := key t.2.2 (by omega)
  refine ⟨jsRound ((t.1 : ℚ) / 25), jsRound ((t.2.1 : ℚ) / 25),
    jsRound ((t.2.2 : ℚ) / 25), havg, kr1, kr2, kg1, kg2, kb1, kb2, ?_⟩
  intro p s
  show (rgbToHex _ _ _).length = 7
  rw [rgbToHex]
  simp only [String.length_append, hexlen _ kr1 kr2, hexlen _ kg1 kg2,
    hexlen _ kb1 kb2]
  rfl

theorem averageChannels_byte_safety_instance :
    ∃ r g b : ℤ,
      averageChannels (List.replicate 100 (255 : ℕ)) = some (r, g, b) ∧
      0 ≤ r ∧ r ≤ 255 ∧ 0 ≤ g ∧ g ≤ 255 ∧ 0 ≤ b ∧ b ≤ 255 ∧
      ∀ p s : Option String, ((mkColorData p s r g b).hex).length = 7 :=
  averageChannels_byte_safety (List.replicate 100 (255 : ℕ)) (by simp)
    (fun x hx => by simpa using (List.eq_of_mem_replicate hx).le)
